import Mathlib

/-!
Verification development for the product-query-generation pipeline
(`app/services/query_generator.py`, `app/services/generator.py`,
`app/prompts.py`, `app/schemas.py`).

The Python source is shallowly embedded: pure helpers become Lean
functions, the per-product orchestrator becomes an `Except`-valued
function (the error type models the Python exceptions that can escape),
the model client is an oracle parameter, and the `asyncio` batch layer is
modelled both denotationally (a list function) and operationally (a
small-step scheduler with a counting semaphore).
-/

/-! ## Python string primitives -/

/-- Whitespace characters stripped by Python `str.strip()` (ASCII subset;
the pipeline only ever meets these). -/
def pyIsWs : Char → Bool
  | ' ' | '\t' | '\n' | '\r' | '\x0b' | '\x0c' => true
  | _ => false

/-- `str.strip()` on a list of characters: drop whitespace from both ends. -/
def pyStripList (l : List Char) : List Char :=
  ((l.dropWhile pyIsWs).reverse.dropWhile pyIsWs).reverse

/-- Model of Python `str.strip()`. -/
def pyStrip (s : String) : String :=
  String.mk (pyStripList s.data)

/-- Model of Python `str.lower()` (character-wise lowering). -/
def pyLower (s : String) : String :=
  String.mk (s.data.map Char.toLower)

/-! ## JSON values

Model of the values `json.loads` can return: `null`, booleans, numbers
(integers suffice for the claims), strings, arrays, objects. -/

inductive Json where
  | null : Json
  | bool (b : Bool) : Json
  | num (n : Int) : Json
  | str (s : String) : Json
  | arr (xs : List Json) : Json
  | obj (kvs : List (String × Json)) : Json

/-- Python truthiness of a JSON-decoded value (`bool(x)`). -/
def jsonTruthy : Json → Bool
  | .null => false
  | .bool b => b
  | .num n => n != 0
  | .str s => s != ""
  | .arr xs => !xs.isEmpty
  | .obj kvs => !kvs.isEmpty

/-- `dict.get key` on a decoded JSON object; with duplicate keys
`json.loads` keeps the last binding, so lookup prefers later bindings. -/
def objGet (k : String) : List (String × Json) → Option Json
  | [] => none
  | kv :: rest =>
    match objGet k rest with
    | some v => some v
    | none => if kv.1 = k then some kv.2 else none

/-! ## A concrete JSON parser

An executable stand-in for `json.loads`, used to evaluate the pipeline on
concrete model outputs.  It handles objects, arrays, strings with the
common escapes, integers, and the three literals; like `json.loads` it
fails unless the whole input (modulo surrounding whitespace) is consumed. -/

/-- JSON insignificant whitespace. -/
def jsonWsChar : Char → Bool
  | ' ' | '\t' | '\n' | '\r' => true
  | _ => false

def skipWs (l : List Char) : List Char :=
  l.dropWhile jsonWsChar

/-- The JSON escape table: each escape letter paired with the character
it denotes. -/
def jsonEscTable : List (Char × Char) :=
  [('"', '"'), ('\\', '\\'), ('/', '/'), ('n', '\n'),
   ('t', '\t'), ('r', '\r'), ('b', '\x08'), ('f', '\x0c')]

/-- Decode one escape character inside a JSON string. -/
def jsonEsc (c : Char) : Option Char :=
  (jsonEscTable.find? (fun kv => kv.1 == c)).map (fun kv => kv.2)

/-- Parse the body of a JSON string (the opening quote already consumed);
returns the characters and the remaining input. -/
def parseStrChars : List Char → Option (List Char × List Char)
  | [] => none
  | c :: rest =>
    if c = '"' then some ([], rest)
    else if c = '\\' then
      match rest with
      | [] => none
      | e :: rest2 =>
        match jsonEsc e with
        | none => none
        | some ec =>
          match parseStrChars rest2 with
          | none => none
          | some (cs, r) => some (ec :: cs, r)
    else
      match parseStrChars rest with
      | none => none
      | some (cs, r) => some (c :: cs, r)

/-- Parse a run of decimal digits into a natural number. -/
def parseDigits (acc : Nat) : List Char → Option (Nat × List Char)
  | [] => some (acc, [])
  | c :: rest =>
    if c.isDigit then
      match parseDigits (acc * 10 + (c.toNat - '0'.toNat)) rest with
      | some r => some r
      | none => none
    else some (acc, c :: rest)

/-- Parse an integer JSON number (sign and digits). -/
def parseIntNum (l : List Char) : Option (Int × List Char) :=
  match l with
  | '-' :: rest =>
    match rest with
    | c :: _ =>
      if c.isDigit then
        match parseDigits 0 rest with
        | some (n, r) => some (-(n : Int), r)
        | none => none
      else none
    | [] => none
  | c :: _ =>
    if c.isDigit then
      match parseDigits 0 l with
      | some (n, r) => some ((n : Int), r)
      | none => none
    else none
  | [] => none

/-- Check that the input starts with the given literal characters. -/
def eatLit (lit : List Char) (l : List Char) : Option (List Char) :=
  match lit, l with
  | [], rest => some rest
  | c :: cs, d :: ds => if c = d then eatLit cs ds else none
  | _ :: _, [] => none

mutual

/-- Parse one JSON value (fuelled recursive descent). -/
def parseVal : Nat → List Char → Option (Json × List Char)
  | 0, _ => none
  | fuel + 1, l =>
    match skipWs l with
    | [] => none
    | c :: rest =>
      if c = 'n' then
        match eatLit ['u', 'l', 'l'] rest with
        | some r => some (.null, r)
        | none => none
      else if c = 't' then
        match eatLit ['r', 'u', 'e'] rest with
        | some r => some (.bool true, r)
        | none => none
      else if c = 'f' then
        match eatLit ['a', 'l', 's', 'e'] rest with
        | some r => some (.bool false, r)
        | none => none
      else if c = '"' then
        match parseStrChars rest with
        | some (cs, r) => some (.str (String.mk cs), r)
        | none => none
      else if c = '[' then
        match skipWs rest with
        | ']' :: r => some (.arr [], r)
        | l2 =>
          match parseItems fuel l2 with
          | some (vs, r) => some (.arr vs, r)
          | none => none
      else if c = '{' then
        match skipWs rest with
        | '}' :: r => some (.obj [], r)
        | l2 =>
          match parseMembers fuel l2 with
          | some (kvs, r) => some (.obj kvs, r)
          | none => none
      else
        match parseIntNum (c :: rest) with
        | some (n, r) => some (.num n, r)
        | none => none

/-- Parse a nonempty comma-separated list of array items up to `]`. -/
def parseItems : Nat → List Char → Option (List Json × List Char)
  | 0, _ => none
  | fuel + 1, l =>
    match parseVal fuel l with
    | none => none
    | some (v, r) =>
      match skipWs r with
      | ',' :: r2 =>
        match parseItems fuel r2 with
        | some (vs, r3) => some (v :: vs, r3)
        | none => none
      | ']' :: r2 => some ([v], r2)
      | _ => none

/-- Parse a nonempty comma-separated list of object members up to the
closing brace. -/
def parseMembers : Nat → List Char → Option (List (String × Json) × List Char)
  | 0, _ => none
  | fuel + 1, l =>
    match skipWs l with
    | '"' :: r =>
      match parseStrChars r with
      | none => none
      | some (kcs, r2) =>
        match skipWs r2 with
        | ':' :: r3 =>
          match parseVal fuel r3 with
          | none => none
          | some (v, r4) =>
            match skipWs r4 with
            | ',' :: r5 =>
              match parseMembers fuel r5 with
              | some (kvs, r6) => some ((String.mk kcs, v) :: kvs, r6)
              | none => none
            | '}' :: r5 => some ([(String.mk kcs, v)], r5)
            | _ => none
        | _ => none
    | _ => none

end

/-- Executable model of `json.loads`: parse the full input, failing (the
`JSONDecodeError` case) when nothing parses or trailing garbage remains. -/
def jsonParse (s : String) : Except Unit Json :=
  match parseVal (s.data.length + 1) s.data with
  | some (j, r) => if (skipWs r).isEmpty then .ok j else .error ()
  | none => .error ()

/-! ## Data model (`app/schemas.py`) -/

/-- `ProductIn` (app/schemas.py): the validated product record. -/
structure ProductIn where
  id : String
  title : String
  description : Option String := none
  price : Option Int := none
  material : Option String := none
  size : Option String := none
  rating : Option Int := none
  product_type : Option String := none
  vendor : Option String := none
  tags : Option (List String) := none
deriving DecidableEq

/-- `QueryOut` (app/schemas.py): one generated query. -/
structure QueryOut where
  text : String
  style : String
  bucket : String
deriving DecidableEq

/-- `GeneratedQueriesOut` (app/schemas.py): per-product result. -/
structure GeneratedQueriesOut where
  product_id : String
  queries : List QueryOut
deriving DecidableEq

/-! ## Buckets (`app/prompts.py`) -/

/-- `BUCKETS` (app/prompts.py): the closed set of supported buckets. -/
def BUCKETS : List String :=
  ["price", "occasion", "material", "fit", "brand", "rating"]

/-- `valid_bucket_or_misc` (app/prompts.py): lower-case and strip the
candidate bucket, keep it when it is a supported bucket or `misc`,
otherwise fall back to `misc`. -/
def valid_bucket_or_misc (value : String) : String :=
  let v := pyStrip (pyLower value)
  if v ∈ BUCKETS ∨ v = "misc" then v else "misc"

/-! ## Python-level exceptions

The exceptions that can escape the embedded code paths. -/

inductive PyErr where
  /-- `AttributeError`: attribute access (`.get`, `.strip`) on a value of
  the wrong type. -/
  | attrError : PyErr
  /-- `TypeError`: iterating a non-iterable. -/
  | typeError : PyErr
  /-- An exception raised by the model client call. -/
  | modelError : PyErr
  /-- `RuntimeError` raised for a missing SDK or API key. -/
  | runtimeError : PyErr
  /-- `json.JSONDecodeError` escaping an unguarded `json.loads`. -/
  | jsonError : PyErr
deriving DecidableEq

/-! ## Response Interpreter (`query_generator.py`, lines 66–110) -/

/-- `(value or "").strip()` on a field fetched with `dict.get`: a missing
or falsy value yields `""`; a truthy string is stripped; `.strip()` on a
truthy non-string raises `AttributeError`. -/
def pyFieldStr (v : Option Json) : Except PyErr String :=
  match v with
  | none => .ok ""
  | some (.str s) => .ok (pyStrip s)
  | some j => if jsonTruthy j then .error .attrError else .ok ""

/-- `query_generator.py` lines 94–95: a style whose lower-case form is
exactly `natural` or `long` becomes `natural`; everything else `short`. -/
def style_norm_qg (style : String) : String :=
  if pyLower style = "natural" ∨ pyLower style = "long" then "natural" else "short"

/-- `generator.py` line 90 (the earlier variant): a style whose
lower-case form starts with `nat` becomes `natural`; everything else
`short`. -/
def style_norm_gen (style : String) : String :=
  if "nat".data.isPrefixOf (pyLower style).data then "natural" else "short"

/-- The spec sentence, taken literally: any style beginning with or equal
to `natural` or `long` maps to `natural`, anything else to `short`.
Stated over the lower-cased value, the reading most charitable to the
spec. -/
def style_norm_claimed (style : String) : String :=
  if "natural".data.isPrefixOf (pyLower style).data ∨
      "long".data.isPrefixOf (pyLower style).data
  then "natural" else "short"

/-- Lines 89 + 94–95 of `query_generator.py` for the `style` field:
fetch, strip, default empty to `short`, then normalize. -/
def style_from_candidate (v : Option Json) : Except PyErr String := do
  let raw ← pyFieldStr v
  let style := if raw = "" then "short" else raw
  pure (style_norm_qg style)

/-- Lines 90 + 96 of `query_generator.py` for the `bucket` field:
fetch, strip, default empty to `misc`, then whitelist. -/
def bucket_from_candidate (v : Option Json) : Except PyErr String := do
  let raw ← pyFieldStr v
  let bucket := if raw = "" then "misc" else raw
  pure (valid_bucket_or_misc bucket)

/-- Lines 87–98 of `query_generator.py` for one candidate entry: extract
`text`, `style`, `bucket` (each extraction may raise), skip the entry
when the trimmed text is empty, otherwise build the normalized
`QueryOut`.  (The `QueryOut` constructor itself cannot fail: all three
fields are plain strings.) -/
def processEntry (q : Json) : Except PyErr (Option QueryOut) :=
  match q with
  | .obj kvs => do
    let text ← pyFieldStr (objGet "text" kvs)
    let style ← style_from_candidate (objGet "style" kvs)
    let bucket ← bucket_from_candidate (objGet "bucket" kvs)
    if text = "" then pure none
    else pure (some ⟨text, style, bucket⟩)
  | _ => .error .attrError

/-- The `for q in raw_queries` loop: process entries left to right; the
first raised exception escapes. -/
def processAll : List Json → Except PyErr (List QueryOut)
  | [] => .ok []
  | q :: qs => do
    let o ← processEntry q
    let rest ← processAll qs
    match o with
    | none => pure rest
    | some x => pure (x :: rest)

/-- Python iteration over the value found under `queries`: lists iterate
their elements, strings their characters, dicts their keys; numbers,
booleans and `None` raise `TypeError`. -/
def iterQueries : Json → Except PyErr (List Json)
  | .arr xs => .ok xs
  | .str s => .ok (s.data.map (fun c => Json.str (String.mk [c])))
  | .obj kvs => .ok (kvs.map (fun kv => Json.str kv.1))
  | _ => .error .typeError

/-- `data.get("queries", [])` followed by iteration (line 85 + the loop
header): `.get` on a non-dict raises `AttributeError`. -/
def pyGetQueries (data : Json) : Except PyErr (List Json) :=
  match data with
  | .obj kvs =>
    match objGet "queries" kvs with
    | none => .ok []
    | some j => iterQueries j
  | _ => .error .attrError

/-- Python `str.find`: index of the first occurrence of a character. -/
def pyFind (c : Char) (l : List Char) : Option Nat :=
  l.findIdx? (· = c)

/-- Python `str.rfind`: index of the last occurrence of a character. -/
def pyRFind (c : Char) (l : List Char) : Option Nat :=
  (l.reverse.findIdx? (· = c)).map (fun i => l.length - 1 - i)

/-- The Python slice `content[start:stop]` on characters. -/
def pySlice (l : List Char) (start stop : Nat) : List Char :=
  (l.drop start).take (stop - start)

/-- The fallback object the code assigns on parse failure: an object
whose `queries` member is an empty list. -/
def emptyQueriesData : Json :=
  .obj [("queries", .arr [])]

/-- Lines 68–83 of `query_generator.py`: strict parse of the content;
on failure parse the substring from the first brace to the last brace
inclusive; on any further failure (or no such pair) use the empty
`queries` object.  Total: every exception at this stage is caught. -/
def extract_data (parse : String → Except Unit Json) (content : String) : Json :=
  match parse content with
  | .ok j => j
  | .error _ =>
    match pyFind '{' content.data, pyRFind '}' content.data with
    | some s, some e =>
      if e > s then
        match parse (String.mk (pySlice content.data s (e + 1))) with
        | .ok j => j
        | .error _ => emptyQueriesData
      else emptyQueriesData
    | _, _ => emptyQueriesData

/-- The composite dedupe key of line 106: lower-cased text, style,
bucket. -/
def qkey (q : QueryOut) : String × String × String :=
  (pyLower q.text, q.style, q.bucket)

/-- Lines 102–110: order-preserving dedupe by `qkey`; `seen` is the set
of keys already emitted. -/
def dedupe_go (seen : List (String × String × String)) : List QueryOut → List QueryOut
  | [] => []
  | q :: qs =>
    if qkey q ∈ seen then dedupe_go seen qs
    else q :: dedupe_go (qkey q :: seen) qs

/-- The first-pass dedupe, starting from an empty seen set. -/
def dedupe (l : List QueryOut) : List QueryOut :=
  dedupe_go [] l

/-- The full first-pass Response Interpreter (lines 66–110) on the
already-stripped content: extract/repair the JSON object, fetch and
iterate `queries`, process each entry, dedupe. -/
def interpret_queries (parse : String → Except Unit Json) (content : String) :
    Except PyErr (List QueryOut) := do
  let data := extract_data parse content
  let items ← pyGetQueries data
  let out ← processAll items
  pure (dedupe out)

/-! ## Configuration and the model client (`app/config.py`, §6) -/

/-- The settings consulted by the pipeline (`app/config.py` plus the
`concurrency_limit` / `llm_self_check` fields the scripts assign). -/
structure Config where
  openai_api_key : String
  llm_self_check : Bool
  concurrency_limit : Int
  sdk_available : Bool
deriving DecidableEq

/-- A chat message as the pipeline observes it. -/
structure Message where
  content : Option String
deriving DecidableEq

/-- One choice of a chat response; the `message` attribute may be
missing. -/
structure Choice where
  message : Option Message
deriving DecidableEq

/-- A chat-completions response: zero or more choices. -/
structure ChatResponse where
  choices : List Choice
deriving DecidableEq

/-- Outcome of one awaited model-client call: an exception, or a
response object. -/
inductive CallResult where
  | exn : CallResult
  | ok (resp : ChatResponse) : CallResult
deriving DecidableEq

/-- The model client as an oracle: the first-pass call is determined by
the product, the refinement call by the product and the serialized
first-pass JSON it is shown. -/
structure Oracle where
  first : ProductIn → CallResult
  refine : ProductIn → String → CallResult

/-! ## Serialization of the first pass (line 115) -/

/-- JSON string escaping as `json.dumps` performs it on the pipeline's
strings (quote and backslash; enough for the opaque round-trip to the
refine prompt). -/
def jsonEscape (s : String) : String :=
  String.mk (s.data.flatMap (fun c =>
    if c = '"' then ['\\', '"']
    else if c = '\\' then ['\\', '\\'] else [c]))

/-- `json.dumps(q.model_dump(), separators=(",", ":"))` for one query. -/
def dumpQuery (q : QueryOut) : String :=
  "\x7b\"text\":\"" ++ jsonEscape q.text ++ "\",\"style\":\"" ++ jsonEscape q.style
    ++ "\",\"bucket\":\"" ++ jsonEscape q.bucket ++ "\"\x7d"

/-- Minified serialization of the first-pass result (line 115).  This
total function models `json.dumps`, which cannot fail on these
plain-string records. -/
def dumpQueries (qs : List QueryOut) : String :=
  "\x7b\"queries\":[" ++ String.intercalate "," (qs.map dumpQuery) ++ "]\x7d"

/-! ## Refinement pass (`query_generator.py`, lines 112–167) -/

/-- Lines 152–163: dedupe by `qkey` and cap each bucket at two entries;
`seen` is the set of emitted keys, `capped` the per-bucket count. -/
def dedupe_cap_go (seen : List (String × String × String)) (capped : String → Nat) :
    List QueryOut → List QueryOut
  | [] => []
  | q :: qs =>
    if qkey q ∈ seen then dedupe_cap_go seen capped qs
    else if capped q.bucket ≥ 2 then dedupe_cap_go seen capped qs
    else q :: dedupe_cap_go (qkey q :: seen)
      (fun b => if b = q.bucket then capped b + 1 else capped b) qs

/-- The refinement dedupe-and-cap, from empty state. -/
def dedupe_cap (l : List QueryOut) : List QueryOut :=
  dedupe_cap_go [] (fun _ => 0) l

/-- Lines 132–137: JSON extraction for the refined output.  Unlike the
first pass, a parse failure of the brace substring is *not* wrapped in a
local handler: the `JSONDecodeError` escapes (to the surrounding
refinement `try`). -/
def refine_extract_data (parse : String → Except Unit Json) (content2 : String) :
    Except PyErr Json :=
  match parse content2 with
  | .ok j => .ok j
  | .error _ =>
    match pyFind '{' content2.data, pyRFind '}' content2.data with
    | some s, some e =>
      if e > s then
        match parse (String.mk (pySlice content2.data s (e + 1))) with
        | .ok j => .ok j
        | .error _ => .error .jsonError
      else .ok emptyQueriesData
    | _, _ => .ok emptyQueriesData

/-- The body of the refinement `try` block (lines 114–165), with
`refineRes` the oracle already applied to the product: serialize the
first pass, invoke the model, and — when the response carries a first
choice with a message — parse, process, dedupe and bucket-cap the
refined output.  `.error` is any exception inside the `try`; a skipped
guard is the same as zero accepted queries (the code then falls through
to `return deduped`). -/
def refineStage (parse : String → Except Unit Json) (refineRes : String → CallResult)
    (deduped : List QueryOut) : Except PyErr (List QueryOut) :=
  let first_json := dumpQueries deduped
  match refineRes first_json with
  | .exn => .error .modelError
  | .ok resp2 =>
    match resp2.choices with
    | [] => .ok []
    | c0 :: _ =>
      match c0.message with
      | none => .ok []
      | some msg => do
        let content2 := pyStrip (msg.content.getD "")
        let data2 ← refine_extract_data parse content2
        let items ← pyGetQueries data2
        let refined ← processAll items
        pure (dedupe_cap refined)

/-- Lines 112–169 after the first pass: when self-check is enabled, a
refinement result with at least one accepted query replaces the first
pass; an exception anywhere in the stage, or zero accepted queries,
falls back to the first-pass `deduped` unchanged. -/
def apply_self_check (cfg : Config) (parse : String → Except Unit Json)
    (refineRes : String → CallResult) (deduped : List QueryOut) : List QueryOut :=
  if cfg.llm_self_check then
    match refineStage parse refineRes deduped with
    | .error _ => deduped
    | .ok final => if final.isEmpty then deduped else final
  else deduped

/-! ## Single-Product Orchestrator (`query_generator.py`, lines 26–169) -/

/-- Lines 54–63: guard the response shape.  `none` models the early
`return []` paths: no choices, missing message, missing or empty
content; otherwise the raw content string is surfaced. -/
def content_of (resp : ChatResponse) : Option String :=
  match resp.choices with
  | [] => none
  | first :: _ =>
    match first.message with
    | none => none
    | some msg =>
      match msg.content with
      | none => none
      | some c => if c = "" then none else some c

/-- `generate_queries_for_single_product` with the oracle already applied
to the product (the product itself is otherwise used only in prompts and
log lines): configuration guards, the mandatory first call (whose
exception propagates), the response guards, the Response Interpreter,
then the optional self-check stage. -/
def generate_queries_single_core (cfg : Config) (parse : String → Except Unit Json)
    (firstRes : CallResult) (refineRes : String → CallResult) :
    Except PyErr (List QueryOut) :=
  if cfg.sdk_available = false then .error .runtimeError
  else if cfg.openai_api_key = "" then .error .runtimeError
  else
    match firstRes with
    | .exn => .error .modelError
    | .ok resp =>
      match content_of resp with
      | none => .ok []
      | some c =>
        match interpret_queries parse (pyStrip c) with
        | .error e => .error e
        | .ok deduped => .ok (apply_self_check cfg parse refineRes deduped)

/-- `generate_queries_for_single_product` (lines 26–169). -/
def generate_queries_for_single_product (cfg : Config) (parse : String → Except Unit Json)
    (o : Oracle) (p : ProductIn) : Except PyErr (List QueryOut) :=
  generate_queries_single_core cfg parse (o.first p) (o.refine p)

/-! ## Batch Orchestrator (`query_generator.py`, lines 172–205) -/

/-- `run_one` (lines 181–187): any exception escaping the single-product
orchestrator is caught and converted into an empty result for that
product. -/
def run_one (cfg : Config) (parse : String → Except Unit Json) (o : Oracle)
    (p : ProductIn) : GeneratedQueriesOut :=
  match generate_queries_for_single_product cfg parse o p with
  | .error _ => ⟨p.id, []⟩
  | .ok qs => ⟨p.id, qs⟩

/-- The sequential path (lines 190–195): one `run_one` per product, in
input order. -/
def sequential_results (cfg : Config) (parse : String → Except Unit Json) (o : Oracle)
    (products : List ProductIn) : List GeneratedQueriesOut :=
  products.map (run_one cfg parse o)

/-- The concurrent path (lines 197–205): `asyncio.gather` returns the
task results in task order, one `limited_run`/`run_one` per product;
each task's value is independent of the interleaving (no shared mutable
state), which the scheduler model below establishes for every schedule. -/
def gather_results (cfg : Config) (parse : String → Except Unit Json) (o : Oracle)
    (products : List ProductIn) : List GeneratedQueriesOut :=
  products.map (run_one cfg parse o)

/-- `generate_queries_for_batch` (lines 172–205): empty input short
circuits; otherwise the concurrency limit is clamped with
`max(1, int(...))` and the sequential or semaphore-gated path is
chosen. -/
def generate_queries_for_batch (cfg : Config) (parse : String → Except Unit Json)
    (o : Oracle) (products : List ProductIn) : List GeneratedQueriesOut :=
  if products.isEmpty then []
  else
    let concur_limit : Int := max 1 cfg.concurrency_limit
    if concur_limit ≤ 1 then sequential_results cfg parse o products
    else gather_results cfg parse o products

/-- Which of the three control paths of `generate_queries_for_batch` a
given input takes. -/
inductive BatchPath where
  | empty : BatchPath
  | sequential : BatchPath
  | concurrent : BatchPath
deriving DecidableEq

/-- The branch structure of lines 178–205, as an observer. -/
def batch_path (cfg : Config) (products : List ProductIn) : BatchPath :=
  if products.isEmpty then .empty
  else if (max 1 cfg.concurrency_limit : Int) ≤ 1 then .sequential
  else .concurrent

/-! ## Operational model of the concurrent path (§5, lines 197–205)

Single-threaded cooperative concurrency: one logical task per product;
a task suspends only around its model-client calls, which it performs
while holding the semaphore (`async with sem: ... await run_one(p)`).
A task is `ready` before `sem.acquire`, `running` while it holds a
semaphore slot (all of its outstanding model invocations happen in this
phase), and `done` once it has produced its result and released the
slot. -/

inductive TaskPhase where
  | ready : TaskPhase
  | running : TaskPhase
  | done (r : GeneratedQueriesOut) : TaskPhase

/-- One `limited_run` task: the product it owns and its phase. -/
structure BTask where
  product : ProductIn
  phase : TaskPhase

/-- The scheduler state: the task list (index-aligned with the input
products) and the free slots of the counting semaphore. -/
structure SchedState where
  tasks : List BTask
  sem : Nat

/-- Whether a task currently holds a semaphore slot. -/
def isRunning : TaskPhase → Bool
  | .running => true
  | _ => false

/-- How many tasks hold a slot (hence may have a model call
outstanding). -/
def runningCount (ts : List BTask) : Nat :=
  ts.countP (fun t => isRunning t.phase)

/-- The state before any task has run: every task ready, all `C`
semaphore slots free. -/
def initState (products : List ProductIn) (C : Nat) : SchedState :=
  ⟨products.map (fun p => ⟨p, .ready⟩), C⟩

/-- The scheduler's small-step relation.  `acquire` admits a ready task
when a slot is free; `complete` lets a running task finish its work —
its result is `run_one` of its own product, independent of every other
task — and release its slot.  Interleaving is unconstrained. -/
inductive SchedStep (cfg : Config) (parse : String → Except Unit Json) (o : Oracle) :
    SchedState → SchedState → Prop where
  | acquire (σ : SchedState) (i : Nat) (h : i < σ.tasks.length) (n : Nat) :
      (σ.tasks.get ⟨i, h⟩).phase = .ready →
      σ.sem = n + 1 →
      SchedStep cfg parse o σ
        ⟨σ.tasks.set i ⟨(σ.tasks.get ⟨i, h⟩).product, .running⟩, n⟩
  | complete (σ : SchedState) (i : Nat) (h : i < σ.tasks.length) :
      (σ.tasks.get ⟨i, h⟩).phase = .running →
      SchedStep cfg parse o σ
        ⟨σ.tasks.set i ⟨(σ.tasks.get ⟨i, h⟩).product,
            .done (run_one cfg parse o (σ.tasks.get ⟨i, h⟩).product)⟩,
          σ.sem + 1⟩

/-- Reachability of a scheduler state from the batch's initial state. -/
def SchedReachable (cfg : Config) (parse : String → Except Unit Json) (o : Oracle)
    (products : List ProductIn) (C : Nat) (σ : SchedState) : Prop :=
  Relation.ReflTransGen (SchedStep cfg parse o) (initState products C) σ

/-- Occurrences of a bucket among a list of queries. -/
def countBucket (b : String) (l : List QueryOut) : Nat :=
  l.countP (fun q => q.bucket == b)

/-- The §3 invariant on a Generated Query: trimmed non-empty text,
closed style set, closed bucket set. -/
def WellFormedQuery (q : QueryOut) : Prop :=
  pyStrip q.text = q.text ∧ q.text ≠ "" ∧
    (q.style = "short" ∨ q.style = "natural") ∧
    (q.bucket ∈ BUCKETS ∨ q.bucket = "misc")

/-! ## Concrete fixtures

Small concrete inputs used to evaluate the pipeline at specific points
(model outputs are written with the braces escaped as characters). -/

/-- A configuration with the SDK and key present, self-check off, and a
concurrency limit of 4. -/
def cfgDemo : Config :=
  { openai_api_key := "key", llm_self_check := false,
    concurrency_limit := 4, sdk_available := true }

/-- The same configuration with self-check on. -/
def cfgSelfCheck : Config :=
  { cfgDemo with llm_self_check := true }

/-- A response whose single choice carries the given content. -/
def respWith (s : String) : ChatResponse :=
  { choices := [{ message := some { content := some s } }] }

/-- A well-formed one-query model output. -/
def jsonGood : String :=
  "\x7b\"queries\":[\x7b\"text\":\"red dress\",\"style\":\"natural\",\"bucket\":\"price\"\x7d]\x7d"

/-- The query `jsonGood` decodes to. -/
def qDemo : QueryOut :=
  { text := "red dress", style := "natural", bucket := "price" }

/-- An oracle that always answers `jsonGood` and whose refinement call
always raises. -/
def oracleDemo : Oracle :=
  { first := fun _ => .ok (respWith jsonGood), refine := fun _ _ => .exn }

/-- Demo products. -/
def pDemo1 : ProductIn := { id := "p1", title := "Red Dress" }

def pDemo2 : ProductIn := { id := "p2", title := "Black Jacket" }

def pDemo3 : ProductIn := { id := "p3", title := "Silk Scarf" }

/-- An oracle that raises on the first call for exactly the product
`pDemo2`. -/
def oracleFailP2 : Oracle :=
  { first := fun p => if p = pDemo2 then .exn else .ok (respWith jsonGood),
    refine := fun _ _ => .exn }

/-- A two-product batch. -/
def prodsDemo : List ProductIn := [pDemo1, pDemo2]

/-- A three-product batch with the failing product in the middle. -/
def prods3 : List ProductIn := [pDemo1, pDemo2, pDemo3]

/-- A configuration whose concurrency limit is zero (clamped to one). -/
def cfgSeq : Config := { cfgDemo with concurrency_limit := 0 }

/-- A five-product batch for the concurrency fixture. -/
def prods5 : List ProductIn :=
  [pDemo1, pDemo2, pDemo3, { id := "p4", title := "Hat" }, { id := "p5", title := "Belt" }]

/-- A first-pass model output with three distinct price queries. -/
def threePriceRaw : String :=
  "\x7b\"queries\":[\x7b\"text\":\"a\",\"style\":\"short\",\"bucket\":\"price\"\x7d,\x7b\"text\":\"b\",\"style\":\"short\",\"bucket\":\"price\"\x7d,\x7b\"text\":\"c\",\"style\":\"short\",\"bucket\":\"price\"\x7d]\x7d"

/-- The three price queries of `threePriceRaw`. -/
def threePriceList : List QueryOut :=
  [{ text := "a", style := "short", bucket := "price" },
   { text := "b", style := "short", bucket := "price" },
   { text := "c", style := "short", bucket := "price" }]

/-- Two queries differing only in the case of their text. -/
def qCaseA : QueryOut := { text := "Red Dress", style := "short", bucket := "misc" }

def qCaseB : QueryOut := { text := "red dress", style := "short", bucket := "misc" }

/-! ## Supporting lemmas: stripping -/

/-- `pyStripList` is the right-drop of the left-drop. -/
theorem pyStripList_eq (l : List Char) :
    pyStripList l = List.rdropWhile pyIsWs (List.dropWhile pyIsWs l) := rfl

/-- Removing trailing whitespace preserves "starts with a
non-whitespace character", so the left drop is then the identity. -/
theorem dropWhile_rdropWhile (l : List Char) :
    List.dropWhile pyIsWs (List.rdropWhile pyIsWs (List.dropWhile pyIsWs l)) =
      List.rdropWhile pyIsWs (List.dropWhile pyIsWs l) := by
  apply List.dropWhile_eq_self_iff.mpr
  intro h0
  have hpre : List.rdropWhile pyIsWs (List.dropWhile pyIsWs l) <+: List.dropWhile pyIsWs l :=
    List.rdropWhile_prefix pyIsWs (List.dropWhile pyIsWs l)
  have hlen : 0 < (List.dropWhile pyIsWs l).length :=
    Nat.lt_of_lt_of_le h0 hpre.length_le
  have hhead := List.IsPrefix.getElem hpre h0
  simp only [List.get_eq_getElem]
  rw [hhead]
  have hz := List.dropWhile_get_zero_not pyIsWs l hlen
  simpa [List.get_eq_getElem] using hz

/-- Python stripping is idempotent. -/
theorem pyStripList_idem (l : List Char) :
    pyStripList (pyStripList l) = pyStripList l := by
  rw [pyStripList_eq, pyStripList_eq l, dropWhile_rdropWhile,
    List.rdropWhile_idempotent]

/-- `pyStrip` is idempotent: once-stripped text is a fixed point. -/
theorem pyStrip_idem (s : String) : pyStrip (pyStrip s) = pyStrip s := by
  simp [pyStrip, pyStripList_idem]

/-! ## Supporting lemmas: dedupe -/

/-- The dedupe loop emits a sublist of its input. -/
theorem dedupe_go_sublist (seen : List (String × String × String)) (l : List QueryOut) :
    (dedupe_go seen l).Sublist l := by
  induction l generalizing seen with
  | nil => simp [dedupe_go]
  | cons q qs ih =>
    by_cases h : qkey q ∈ seen
    · simp only [dedupe_go, if_pos h]
      exact (ih seen).trans (List.sublist_cons_self q qs)
    · simp only [dedupe_go, if_neg h]
      exact List.Sublist.cons₂ q (ih (qkey q :: seen))

/-- No key already seen is ever emitted by the dedupe loop. -/
theorem dedupe_go_not_seen (seen : List (String × String × String)) (l : List QueryOut)
    (q : QueryOut) (hq : q ∈ dedupe_go seen l) : qkey q ∉ seen := by
  induction l generalizing seen with
  | nil => simp [dedupe_go] at hq
  | cons x xs ih =>
    by_cases h : qkey x ∈ seen
    · simp only [dedupe_go, if_pos h] at hq
      exact ih seen hq
    · simp only [dedupe_go, if_neg h] at hq
      rcases List.mem_cons.mp hq with hq2 | hq2
      · subst hq2; exact h
      · have hni := ih (qkey x :: seen) hq2
        intro hmem
        exact hni (List.mem_cons_of_mem _ hmem)

/-- The dedupe loop emits pairwise-distinct keys. -/
theorem dedupe_go_pairwise (seen : List (String × String × String)) (l : List QueryOut) :
    (dedupe_go seen l).Pairwise (fun a b => qkey a ≠ qkey b) := by
  induction l generalizing seen with
  | nil => simp [dedupe_go]
  | cons x xs ih =>
    by_cases h : qkey x ∈ seen
    · simp only [dedupe_go, if_pos h]
      exact ih seen
    · simp only [dedupe_go, if_neg h]
      refine List.Pairwise.cons ?_ (ih (qkey x :: seen))
      intro b hb
      have hnb := dedupe_go_not_seen (qkey x :: seen) xs b hb
      intro hxb
      exact hnb (by rw [← hxb]; exact List.mem_cons_self _ _)

/-- Every input key survives into the output (or was already seen). -/
theorem dedupe_go_covers (seen : List (String × String × String)) (l : List QueryOut)
    (q : QueryOut) (hq : q ∈ l) :
    qkey q ∈ seen ∨ ∃ q₂ ∈ dedupe_go seen l, qkey q₂ = qkey q := by
  induction l generalizing seen with
  | nil => simp at hq
  | cons x xs ih =>
    by_cases h : qkey x ∈ seen
    · rcases List.mem_cons.mp hq with hq2 | hq2
      · subst hq2; exact Or.inl h
      · rcases ih seen hq2 with hs | ⟨q₂, h₂, hk⟩
        · exact Or.inl hs
        · exact Or.inr ⟨q₂, by simpa [dedupe_go, if_pos h] using h₂, hk⟩
    · rcases List.mem_cons.mp hq with hq2 | hq2
      · subst hq2
        exact Or.inr ⟨q, by simp [dedupe_go, if_neg h], rfl⟩
      · rcases ih (qkey x :: seen) hq2 with hs | ⟨q₂, h₂, hk⟩
        · rcases List.mem_cons.mp hs with he | hs2
          · exact Or.inr ⟨x, by simp [dedupe_go, if_neg h], he.symm⟩
          · exact Or.inl hs2
        · refine Or.inr ⟨q₂, ?_, hk⟩
          simp only [dedupe_go, if_neg h]
          exact List.mem_cons_of_mem _ h₂

/-- The first occurrence of a key (unseen so far) is kept. -/
theorem dedupe_go_keeps_first (l : List QueryOut) (seen : List (String × String × String))
    (i : Nat) (hi : i < l.length)
    (hseen : qkey (l.get ⟨i, hi⟩) ∉ seen)
    (hfirst : ∀ j (hj : j < i), qkey (l.get ⟨j, Nat.lt_trans hj hi⟩) ≠ qkey (l.get ⟨i, hi⟩)) :
    l.get ⟨i, hi⟩ ∈ dedupe_go seen l := by
  induction l generalizing seen i with
  | nil => simp at hi
  | cons x xs ih =>
    cases i with
    | zero =>
      simp only [List.get] at hseen ⊢
      simp [dedupe_go, if_neg hseen]
    | succ j =>
      have hj : j < xs.length := Nat.lt_of_succ_lt_succ hi
      by_cases h : qkey x ∈ seen
      · simp only [dedupe_go, if_pos h]
        exact ih seen j hj hseen (fun k hk => hfirst (k + 1) (Nat.succ_lt_succ hk))
      · simp only [dedupe_go, if_neg h]
        refine List.mem_cons_of_mem x ?_
        refine ih (qkey x :: seen) j hj ?_ (fun k hk => hfirst (k + 1) (Nat.succ_lt_succ hk))
        intro hmem
        rcases List.mem_cons.mp hmem with he | hs2
        · exact hfirst 0 (Nat.succ_pos j) he.symm
        · exact hseen hs2

/-! ## Supporting lemmas: the refinement bucket cap -/

/-- The cap loop emits a sublist of its input. -/
theorem dedupe_cap_go_sublist (seen : List (String × String × String))
    (capped : String → Nat) (l : List QueryOut) :
    (dedupe_cap_go seen capped l).Sublist l := by
  induction l generalizing seen capped with
  | nil => simp [dedupe_cap_go]
  | cons q qs ih =>
    by_cases h1 : qkey q ∈ seen
    · simp only [dedupe_cap_go, if_pos h1]
      exact (ih seen capped).trans (List.sublist_cons_self q qs)
    · by_cases h2 : capped q.bucket ≥ 2
      · simp only [dedupe_cap_go, if_neg h1, if_pos h2]
        exact (ih seen capped).trans (List.sublist_cons_self q qs)
      · simp only [dedupe_cap_go, if_neg h1, if_neg h2]
        exact List.Sublist.cons₂ q (ih _ _)

/-- The cap loop never exceeds the remaining budget of any bucket:
emitted occurrences of `b` plus the (saturated) count already charged
stay within the cap of two. -/
theorem dedupe_cap_go_count (l : List QueryOut) (seen : List (String × String × String))
    (capped : String → Nat) (b : String) :
    countBucket b (dedupe_cap_go seen capped l) + min (capped b) 2 ≤ 2 := by
  induction l generalizing seen capped with
  | nil =>
    simp only [dedupe_cap_go, countBucket, List.countP_nil]
    omega
  | cons q qs ih =>
    by_cases h1 : qkey q ∈ seen
    · simpa only [dedupe_cap_go, if_pos h1] using ih seen capped
    · by_cases h2 : capped q.bucket ≥ 2
      · simpa only [dedupe_cap_go, if_neg h1, if_pos h2] using ih seen capped
      · simp only [dedupe_cap_go, if_neg h1, if_neg h2]
        have ihx := ih (qkey q :: seen) (fun c => if c = q.bucket then capped c + 1 else capped c)
        by_cases hb : q.bucket = b
        · subst hb
          rw [if_pos rfl] at ihx
          simp only [countBucket, List.countP_cons, beq_self_eq_true, if_true] at ihx ⊢
          omega
        · have hne : b = q.bucket ↔ False := by
            constructor
            · intro h; exact hb h.symm
            · intro h; exact h.elim
          simp only [hne, if_false] at ihx
          simp only [countBucket, List.countP_cons] at ihx ⊢
          have hq : (q.bucket == b) = false := by
            exact beq_eq_false_iff_ne.mpr hb
          rw [hq] at *
          simp at ihx ⊢
          omega

/-- The cap applied from an empty state keeps at most two entries per
bucket. -/
theorem dedupe_cap_count (l : List QueryOut) (b : String) :
    countBucket b (dedupe_cap l) ≤ 2 := by
  have h := dedupe_cap_go_count l [] (fun _ => 0) b
  simpa [dedupe_cap] using h

/-! ## Supporting lemmas: well-formedness of surfaced queries -/

/-- A successfully fetched field string is strip-fixed. -/
theorem pyFieldStr_stripped (v : Option Json) (t : String)
    (h : pyFieldStr v = .ok t) : pyStrip t = t := by
  match v with
  | none =>
    simp only [pyFieldStr, Except.ok.injEq] at h
    subst h
    rfl
  | some (.str s) =>
    simp only [pyFieldStr, Except.ok.injEq] at h
    subst h
    exact pyStrip_idem s
  | some .null | some (.bool _) | some (.num _) | some (.arr _) | some (.obj _) =>
    simp only [pyFieldStr] at h
    split at h
    · cases h
    · simp only [Except.ok.injEq] at h
      subst h
      rfl

/-- The normalized style is always one of the two style constants. -/
theorem style_norm_qg_cases (s : String) :
    style_norm_qg s = "short" ∨ style_norm_qg s = "natural" := by
  unfold style_norm_qg
  split
  · exact Or.inr rfl
  · exact Or.inl rfl

/-- The whitelisted bucket is always a supported bucket or `misc`. -/
theorem valid_bucket_or_misc_cases (s : String) :
    valid_bucket_or_misc s ∈ BUCKETS ∨ valid_bucket_or_misc s = "misc" := by
  by_cases h : pyStrip (pyLower s) ∈ BUCKETS ∨ pyStrip (pyLower s) = "misc"
  · rcases h with h1 | h1
    · left
      simp [valid_bucket_or_misc, h1]
    · right
      simp [valid_bucket_or_misc, h1]
  · right
    simp [valid_bucket_or_misc, h]

/-- A style produced by the candidate pipeline is a style constant. -/
theorem style_from_candidate_cases (v : Option Json) (st : String)
    (h : style_from_candidate v = .ok st) :
    st = "short" ∨ st = "natural" := by
  unfold style_from_candidate at h
  cases hv : pyFieldStr v with
  | error e => rw [hv] at h; cases h
  | ok raw =>
    rw [hv] at h
    have h2 : (Except.ok (style_norm_qg (if raw = "" then "short" else raw)) :
        Except PyErr String) = Except.ok st := h
    cases h2
    exact style_norm_qg_cases _

/-- A bucket produced by the candidate pipeline is in the closed set. -/
theorem bucket_from_candidate_cases (v : Option Json) (bk : String)
    (h : bucket_from_candidate v = .ok bk) :
    bk ∈ BUCKETS ∨ bk = "misc" := by
  unfold bucket_from_candidate at h
  cases hv : pyFieldStr v with
  | error e => rw [hv] at h; cases h
  | ok raw =>
    rw [hv] at h
    have h2 : (Except.ok (valid_bucket_or_misc (if raw = "" then "misc" else raw)) :
        Except PyErr String) = Except.ok bk := h
    cases h2
    exact valid_bucket_or_misc_cases _

/-- Every query a processed entry yields satisfies the §3 invariant. -/
theorem processEntry_wf (j : Json) (q : QueryOut)
    (h : processEntry j = .ok (some q)) : WellFormedQuery q := by
  match j with
  | .null | .bool _ | .num _ | .str _ | .arr _ => simp [processEntry] at h
  | .obj kvs =>
    simp only [processEntry] at h
    cases ht : pyFieldStr (objGet "text" kvs) with
    | error e => rw [ht] at h; cases h
    | ok text =>
      rw [ht] at h
      cases hs : style_from_candidate (objGet "style" kvs) with
      | error e => rw [hs] at h; cases h
      | ok st =>
        rw [hs] at h
        cases hb : bucket_from_candidate (objGet "bucket" kvs) with
        | error e => rw [hb] at h; cases h
        | ok bk =>
          rw [hb] at h
          have h3 : (if text = "" then (pure none : Except PyErr (Option QueryOut))
              else pure (some ⟨text, st, bk⟩)) = Except.ok (some q) := h
          by_cases he : text = ""
          · rw [if_pos he] at h3
            have h2 : (Except.ok none : Except PyErr (Option QueryOut)) =
                Except.ok (some q) := h3
            simp at h2
          · rw [if_neg he] at h3
            have h2 : (Except.ok (some (⟨text, st, bk⟩ : QueryOut)) :
                Except PyErr (Option QueryOut)) = Except.ok (some q) := h3
            injection h2 with h4
            injection h4 with h5
            rw [← h5]
            exact ⟨pyFieldStr_stripped _ _ ht, he,
              style_from_candidate_cases _ _ hs,
              bucket_from_candidate_cases _ _ hb⟩

/-- Every query in the output of the processing loop comes from some
entry of the input. -/
theorem processAll_mem (items : List Json) (out : List QueryOut)
    (h : processAll items = .ok out) (q : QueryOut) (hq : q ∈ out) :
    ∃ j ∈ items, processEntry j = .ok (some q) := by
  induction items generalizing out with
  | nil =>
    have h2 : (Except.ok [] : Except PyErr (List QueryOut)) = Except.ok out := h
    injection h2 with h3
    subst h3
    simp at hq
  | cons x xs ih =>
    simp only [processAll] at h
    cases hx : processEntry x with
    | error e => rw [hx] at h; cases h
    | ok o =>
      rw [hx] at h
      cases hr : processAll xs with
      | error e => rw [hr] at h; cases h
      | ok rest =>
        rw [hr] at h
        cases o with
        | none =>
          have h2 : (Except.ok rest : Except PyErr (List QueryOut)) = Except.ok out := h
          injection h2 with h3
          subst h3
          obtain ⟨j, hj, hjq⟩ := ih rest hr hq
          exact ⟨j, List.mem_cons_of_mem _ hj, hjq⟩
        | some x2 =>
          have h2 : (Except.ok (x2 :: rest) : Except PyErr (List QueryOut)) =
              Except.ok out := h
          injection h2 with h3
          subst h3
          rcases List.mem_cons.mp hq with hq2 | hq2
          · subst hq2
            exact ⟨x, List.mem_cons_self _ _, hx⟩
          · obtain ⟨j, hj, hjq⟩ := ih rest hr hq2
            exact ⟨j, List.mem_cons_of_mem _ hj, hjq⟩

/-- Every query the first-pass Response Interpreter returns satisfies
the §3 invariant. -/
theorem interpret_queries_wf (parse : String → Except Unit Json) (content : String)
    (res : List QueryOut) (h : interpret_queries parse content = .ok res)
    (q : QueryOut) (hq : q ∈ res) : WellFormedQuery q := by
  simp only [interpret_queries] at h
  cases h1 : pyGetQueries (extract_data parse content) with
  | error e => rw [h1] at h; cases h
  | ok items =>
    rw [h1] at h
    have hA : ((processAll items >>= fun out =>
        pure (dedupe out)) : Except PyErr (List QueryOut)) = Except.ok res := h
    cases h2 : processAll items with
    | error e => rw [h2] at hA; cases hA
    | ok out =>
      rw [h2] at hA
      have h3 : (Except.ok (dedupe out) : Except PyErr (List QueryOut)) =
          Except.ok res := hA
      injection h3 with h4
      subst h4
      have hmem : q ∈ out := (dedupe_go_sublist [] out).subset hq
      obtain ⟨j, _, hjq⟩ := processAll_mem items out h2 q hmem
      exact processEntry_wf j q hjq

/-- Every query the refinement stage accepts satisfies the §3
invariant. -/
theorem refineStage_wf (parse : String → Except Unit Json)
    (refineRes : String → CallResult) (deduped final : List QueryOut)
    (h : refineStage parse refineRes deduped = .ok final)
    (q : QueryOut) (hq : q ∈ final) : WellFormedQuery q := by
  simp only [refineStage] at h
  cases hr : refineRes (dumpQueries deduped) with
  | exn => rw [hr] at h; cases h
  | ok resp2 =>
    rw [hr] at h
    obtain ⟨chs⟩ := resp2
    cases chs with
    | nil =>
      have h3 : (Except.ok [] : Except PyErr (List QueryOut)) = Except.ok final := h
      injection h3 with h4
      subst h4
      simp at hq
    | cons c0 cs =>
      obtain ⟨msgopt⟩ := c0
      cases msgopt with
      | none =>
        have h3 : (Except.ok [] : Except PyErr (List QueryOut)) = Except.ok final := h
        injection h3 with h4
        subst h4
        simp at hq
      | some msg =>
        have hA : ((refine_extract_data parse (pyStrip (msg.content.getD "")) >>=
            fun data2 => pyGetQueries data2 >>= fun items =>
            processAll items >>= fun refined =>
            pure (dedupe_cap refined)) : Except PyErr (List QueryOut)) =
            Except.ok final := h
        cases hd : refine_extract_data parse (pyStrip (msg.content.getD "")) with
        | error e => rw [hd] at hA; cases hA
        | ok data2 =>
          rw [hd] at hA
          have hB : ((pyGetQueries data2 >>= fun items =>
              processAll items >>= fun refined =>
              pure (dedupe_cap refined)) : Except PyErr (List QueryOut)) =
              Except.ok final := hA
          cases hg : pyGetQueries data2 with
          | error e => rw [hg] at hB; cases hB
          | ok items =>
            rw [hg] at hB
            have hC : ((processAll items >>= fun refined =>
                pure (dedupe_cap refined)) : Except PyErr (List QueryOut)) =
                Except.ok final := hB
            cases hp2 : processAll items with
            | error e => rw [hp2] at hC; cases hC
            | ok refined =>
              rw [hp2] at hC
              have h3 : (Except.ok (dedupe_cap refined) : Except PyErr (List QueryOut)) =
                  Except.ok final := hC
              injection h3 with h4
              subst h4
              have hmem : q ∈ refined := (dedupe_cap_go_sublist [] _ refined).subset hq
              obtain ⟨j, _, hjq⟩ := processAll_mem items refined hp2 q hmem
              exact processEntry_wf j q hjq

/-- The self-check stage preserves the invariant: its output is either
the (well-formed) first pass or a well-formed refinement result. -/
theorem apply_self_check_wf (cfg : Config) (parse : String → Except Unit Json)
    (refineRes : String → CallResult) (deduped : List QueryOut)
    (hded : ∀ q ∈ deduped, WellFormedQuery q)
    (q : QueryOut) (hq : q ∈ apply_self_check cfg parse refineRes deduped) :
    WellFormedQuery q := by
  unfold apply_self_check at hq
  by_cases hc : cfg.llm_self_check
  · rw [if_pos hc] at hq
    cases hr : refineStage parse refineRes deduped with
    | error e =>
      rw [hr] at hq
      exact hded q hq
    | ok final =>
      rw [hr] at hq
      have hq2 : q ∈ (if final.isEmpty then deduped else final) := hq
      by_cases he : final.isEmpty
      · rw [if_pos he] at hq2
        exact hded q hq2
      · rw [if_neg he] at hq2
        exact refineStage_wf parse refineRes deduped final hr q hq2
  · rw [if_neg hc] at hq
    exact hded q hq

/-- Every query the single-product orchestrator surfaces satisfies the
§3 invariant. -/
theorem generate_queries_for_single_product_wf (cfg : Config)
    (parse : String → Except Unit Json) (o : Oracle) (p : ProductIn)
    (qs : List QueryOut) (h : generate_queries_for_single_product cfg parse o p = .ok qs)
    (q : QueryOut) (hq : q ∈ qs) : WellFormedQuery q := by
  unfold generate_queries_for_single_product generate_queries_single_core at h
  by_cases h1 : cfg.sdk_available = false
  · rw [if_pos h1] at h; cases h
  · rw [if_neg h1] at h
    by_cases h2 : cfg.openai_api_key = ""
    · rw [if_pos h2] at h; cases h
    · rw [if_neg h2] at h
      cases hf : o.first p with
      | exn => rw [hf] at h; cases h
      | ok resp =>
        rw [hf] at h
        have hA : ((match content_of resp with
            | none => (Except.ok [] : Except PyErr (List QueryOut))
            | some c =>
              match interpret_queries parse (pyStrip c) with
              | .error e => .error e
              | .ok deduped => .ok (apply_self_check cfg parse (o.refine p) deduped)) :
            Except PyErr (List QueryOut)) = Except.ok qs := h
        cases hc : content_of resp with
        | none =>
          rw [hc] at hA
          injection hA with h4
          subst h4
          simp at hq
        | some c =>
          rw [hc] at hA
          have hB : ((match interpret_queries parse (pyStrip c) with
              | .error e => (.error e : Except PyErr (List QueryOut))
              | .ok deduped => .ok (apply_self_check cfg parse (o.refine p) deduped)) :
              Except PyErr (List QueryOut)) = Except.ok qs := hA
          cases hi : interpret_queries parse (pyStrip c) with
          | error e => rw [hi] at hB; cases hB
          | ok deduped =>
            rw [hi] at hB
            have h3 : (Except.ok (apply_self_check cfg parse (o.refine p) deduped) :
                Except PyErr (List QueryOut)) = Except.ok qs := hB
            injection h3 with h4
            subst h4
            exact apply_self_check_wf cfg parse (o.refine p) deduped
              (fun q2 hq2 => interpret_queries_wf parse (pyStrip c) deduped hi q2 hq2) q hq

/-- The batch function is, on every path, the in-order map of `run_one`
over the products. -/
theorem batch_eq_map (cfg : Config) (parse : String → Except Unit Json) (o : Oracle)
    (products : List ProductIn) :
    generate_queries_for_batch cfg parse o products =
      products.map (run_one cfg parse o) := by
  unfold generate_queries_for_batch sequential_results gather_results
  by_cases hp : products.isEmpty
  · rw [if_pos hp]
    rw [List.isEmpty_iff.mp hp]
    rfl
  · rw [if_neg hp]
    show (if (max 1 cfg.concurrency_limit : Int) ≤ 1
        then products.map (run_one cfg parse o)
        else products.map (run_one cfg parse o)) = products.map (run_one cfg parse o)
    split <;> rfl

/-! ## Supporting lemmas: the scheduler -/

/-- `countP` after a point update, in subtraction-free form. -/
theorem countP_set_aux {α : Type} (p : α → Bool) (l : List α) (i : Nat)
    (h : i < l.length) (a : α) :
    (l.set i a).countP p + (if p (l.get ⟨i, h⟩) then 1 else 0) =
      l.countP p + (if p a then 1 else 0) := by
  induction l generalizing i with
  | nil => simp at h
  | cons x xs ih =>
    cases i with
    | zero =>
      simp only [List.set, List.countP_cons, List.get]
      split_ifs <;> omega
    | succ j =>
      have hj : j < xs.length := Nat.lt_of_succ_lt_succ h
      simp only [List.set, List.countP_cons, List.get]
      have hx := ih j hj
      omega

/-- Initially no task is running. -/
theorem runningCount_init (products : List ProductIn) :
    runningCount (products.map (fun p => (⟨p, .ready⟩ : BTask))) = 0 := by
  rw [runningCount, List.countP_eq_zero]
  intro t ht
  obtain ⟨p, -, rfl⟩ := List.mem_map.mp ht
  simp [isRunning]

/-- One scheduler step preserves the semaphore accounting: running
tasks plus free slots equal the capacity. -/
theorem schedStep_inv (cfg : Config) (parse : String → Except Unit Json) (o : Oracle)
    (C : Nat) (σ σ2 : SchedState) (hstep : SchedStep cfg parse o σ σ2)
    (hinv : runningCount σ.tasks + σ.sem = C) :
    runningCount σ2.tasks + σ2.sem = C := by
  cases hstep with
  | acquire i h n hready hsem =>
    have hc := countP_set_aux (fun t => isRunning t.phase) σ.tasks i h
      ⟨(σ.tasks.get ⟨i, h⟩).product, .running⟩
    have e1 : isRunning (σ.tasks.get ⟨i, h⟩).phase = false := by
      rw [hready]
      rfl
    have e2 : isRunning TaskPhase.running = true := rfl
    simp only [e1, e2, Bool.false_eq_true, eq_self_iff_true, if_true, if_false] at hc
    simp only [runningCount] at hinv ⊢
    omega
  | complete i h hrun =>
    have hc := countP_set_aux (fun t => isRunning t.phase) σ.tasks i h
      ⟨(σ.tasks.get ⟨i, h⟩).product,
        .done (run_one cfg parse o (σ.tasks.get ⟨i, h⟩).product)⟩
    have e1 : isRunning (σ.tasks.get ⟨i, h⟩).phase = true := by
      rw [hrun]
      rfl
    have e3 : isRunning (TaskPhase.done
        (run_one cfg parse o (σ.tasks.get ⟨i, h⟩).product)) = false := rfl
    simp only [e1, e3, Bool.false_eq_true, eq_self_iff_true, if_true, if_false] at hc
    simp only [runningCount] at hinv ⊢
    omega

/-- In every reachable state of the concurrent path, running tasks plus
free semaphore slots equal the configured capacity. -/
theorem sched_accounting (cfg : Config) (parse : String → Except Unit Json) (o : Oracle)
    (products : List ProductIn) (C : Nat) (σ : SchedState)
    (h : SchedReachable cfg parse o products C σ) :
    runningCount σ.tasks + σ.sem = C := by
  induction h with
  | refl => simpa [initState] using runningCount_init products
  | tail hsteps hstep ih => exact schedStep_inv cfg parse o C _ _ hstep ih

/-- Alignment invariant of the scheduler: the task list stays
index-aligned with the input products, and a finished task's result is
exactly `run_one` of the product at its own index — completion order
never leaks into the result placement. -/
theorem sched_aligned (cfg : Config) (parse : String → Except Unit Json) (o : Oracle)
    (products : List ProductIn) (C : Nat) (σ : SchedState)
    (h : SchedReachable cfg parse o products C σ) :
    σ.tasks.length = products.length ∧
    ∀ i (h1 : i < σ.tasks.length) (h2 : i < products.length),
      (σ.tasks.get ⟨i, h1⟩).product = products.get ⟨i, h2⟩ ∧
      ∀ r, (σ.tasks.get ⟨i, h1⟩).phase = .done r →
        r = run_one cfg parse o (products.get ⟨i, h2⟩) := by
  induction h with
  | refl =>
    refine ⟨by simp [initState], ?_⟩
    intro i h1 h2
    constructor
    · simp [initState, List.get_eq_getElem]
    · intro r hr
      simp [initState, List.get_eq_getElem] at hr
  | @tail σ1 σ2 hsteps hstep ih =>
    obtain ⟨ihlen, ihal⟩ := ih
    cases hstep with
    | acquire i h n hready hsem =>
      refine ⟨by simpa using ihlen, ?_⟩
      intro j h1 h2
      have h1b : j < σ1.tasks.length := by simpa using h1
      by_cases hij : i = j
      · subst hij
        have hset : ((σ1.tasks.set i
            ⟨(σ1.tasks.get ⟨i, h⟩).product, TaskPhase.running⟩).get ⟨i, h1⟩) =
            ⟨(σ1.tasks.get ⟨i, h⟩).product, TaskPhase.running⟩ := by
          simp [List.get_eq_getElem]
        rw [hset]
        refine ⟨(ihal i h h2).1, ?_⟩
        intro r hr
        cases hr
      · have hset : ((σ1.tasks.set i
            ⟨(σ1.tasks.get ⟨i, h⟩).product, TaskPhase.running⟩).get ⟨j, h1⟩) =
            σ1.tasks.get ⟨j, h1b⟩ := by
          simp [List.get_eq_getElem, List.getElem_set_ne, hij]
        rw [hset]
        exact ihal j h1b h2
    | complete i h hrun =>
      refine ⟨by simpa using ihlen, ?_⟩
      intro j h1 h2
      have h1b : j < σ1.tasks.length := by simpa using h1
      by_cases hij : i = j
      · subst hij
        have hset : ((σ1.tasks.set i
            ⟨(σ1.tasks.get ⟨i, h⟩).product,
              TaskPhase.done (run_one cfg parse o (σ1.tasks.get ⟨i, h⟩).product)⟩).get
              ⟨i, h1⟩) =
            ⟨(σ1.tasks.get ⟨i, h⟩).product,
              TaskPhase.done (run_one cfg parse o (σ1.tasks.get ⟨i, h⟩).product)⟩ := by
          simp [List.get_eq_getElem]
        rw [hset]
        have hprod := (ihal i h h2).1
        refine ⟨hprod, ?_⟩
        intro r hr
        injection hr with h5
        rw [← h5, hprod]
      · have hset : ((σ1.tasks.set i
            ⟨(σ1.tasks.get ⟨i, h⟩).product,
              TaskPhase.done (run_one cfg parse o (σ1.tasks.get ⟨i, h⟩).product)⟩).get
              ⟨j, h1⟩) =
            σ1.tasks.get ⟨j, h1b⟩ := by
          simp [List.get_eq_getElem, List.getElem_set_ne, hij]
        rw [hset]
        exact ihal j h1b h2

/-! ## Claim theorems -/

/-- C6: the Response Interpreter deduplicates by the composite key
(lower-cased text, style, bucket): the output has pairwise-distinct
keys, is a sublist of the input (first-seen order), every input key is
represented, and the first occurrence of each key is retained. -/
theorem dedupe_characterization (l : List QueryOut) :
    (dedupe l).Pairwise (fun a b => qkey a ≠ qkey b) ∧
    (dedupe l).Sublist l ∧
    (∀ q ∈ l, ∃ q₂ ∈ dedupe l, qkey q₂ = qkey q) ∧
    (∀ i (hi : i < l.length),
      (∀ j (hj : j < i), qkey (l.get ⟨j, Nat.lt_trans hj hi⟩) ≠ qkey (l.get ⟨i, hi⟩)) →
      l.get ⟨i, hi⟩ ∈ dedupe l) := by
  refine ⟨dedupe_go_pairwise [] l, dedupe_go_sublist [] l, ?_, ?_⟩
  · intro q hq
    rcases dedupe_go_covers [] l q hq with hs | hcov
    · simp at hs
    · exact hcov
  · intro i hi hfirst
    exact dedupe_go_keeps_first l [] i hi (by simp) hfirst

/-- C6 witness: on two queries differing only in text case, the first
is retained (by the theorem) and the dedupe drops the second. -/
theorem dedupe_characterization_witness :
    [qCaseA, qCaseB].get ⟨0, by decide⟩ ∈ dedupe [qCaseA, qCaseB] ∧
    dedupe [qCaseA, qCaseB] = [qCaseA] :=
  ⟨(dedupe_characterization [qCaseA, qCaseB]).2.2.2 0 (by decide)
      (fun j hj => absurd hj (Nat.not_lt_zero j)),
    by decide⟩

set_option maxRecDepth 8000 in
/-- C7: the refinement-pass interpreter keeps at most two entries per
bucket, in first-seen order; the first-pass interpreter applies no such
cap (three price queries survive the first pass intact but are cut to
two by the refinement cap). -/
theorem refinement_cap_two_per_bucket :
    (∀ (l : List QueryOut) (b : String),
      countBucket b (dedupe_cap l) ≤ 2 ∧ (dedupe_cap l).Sublist l) ∧
    interpret_queries jsonParse threePriceRaw = .ok threePriceList ∧
    countBucket "price" threePriceList = 3 ∧
    dedupe_cap threePriceList = [threePriceList.get ⟨0, by decide⟩,
      threePriceList.get ⟨1, by decide⟩] ∧
    countBucket "price" (dedupe_cap threePriceList) = 2 := by
  refine ⟨fun l b => ⟨dedupe_cap_count l b, dedupe_cap_go_sublist [] _ l⟩, ?_, ?_, ?_, ?_⟩
  · rfl
  · decide
  · decide
  · decide

/-- C3 (code bug): for the raw model output `[1]` — a well-formed JSON
text whose top level is not an object — the Response Interpreter does
not return an empty sequence: `data.get("queries", [])` is an attribute
access on a list and raises `AttributeError`, which propagates out of
`generate_queries_for_single_product` (here surfaced as `.error`), so
the "never raises, worst case empty" contract does not hold at this
boundary. -/
theorem interpreter_raises_on_non_object :
    interpret_queries jsonParse "[1]" = .error .attrError ∧
    generate_queries_single_core cfgDemo jsonParse (.ok (respWith "[1]"))
      (fun _ => .exn) = .error .attrError := by
  constructor
  · rfl
  · rfl

/-- C4 counterexample: `naturally` begins with the synonym `natural`,
so the claimed normalization maps it to `natural`, but the batch
pipeline (exact-match on the lower-cased value) yields `short`; dually
`long` is claimed a synonym but the legacy `generator.py` variant
(prefix `nat` only) yields `short` for it. -/
theorem style_norm_counterexample :
    style_norm_qg "naturally" = "short" ∧
    style_norm_claimed "naturally" = "natural" ∧
    style_norm_gen "long" = "short" ∧
    style_norm_claimed "long" = "natural" := by
  refine ⟨?_, ?_, ?_, ?_⟩ <;> decide

/-- C4 (amended): in `query_generator.py` a candidate style normalizes
to `natural` exactly when its lower-cased value is `natural` or `long`
(missing styles default to `short`); in `generator.py` exactly when its
lower-cased value begins with `nat`; everything else is `short`. -/
theorem style_norm_characterization :
    (∀ v : Option Json, v = none → style_from_candidate v = .ok "short") ∧
    (∀ st : String, style_norm_qg st = "natural" ↔
      (pyLower st = "natural" ∨ pyLower st = "long")) ∧
    (∀ st : String, style_norm_qg st = "natural" ∨ style_norm_qg st = "short") ∧
    (∀ st : String, style_norm_gen st = "natural" ↔
      "nat".data.isPrefixOf (pyLower st).data) := by
  refine ⟨?_, ?_, ?_, ?_⟩
  · intro v hv
    subst hv
    rfl
  · intro st
    by_cases h : pyLower st = "natural" ∨ pyLower st = "long"
    · simp [style_norm_qg, h]
    · simp only [style_norm_qg, if_neg h]
      constructor
      · intro hcontra
        exact absurd hcontra (by decide)
      · intro hcontra
        exact absurd hcontra h
  · intro st
    rcases style_norm_qg_cases st with h | h
    · exact Or.inr h
    · exact Or.inl h
  · intro st
    unfold style_norm_gen
    by_cases h : "nat".data.isPrefixOf (pyLower st).data
    · simp [h]
    · simp [h]

/-- C4 witness: the defaulted-missing-style case and one long-form
synonym, at concrete inputs. -/
theorem style_norm_characterization_witness :
    style_from_candidate none = .ok "short" ∧ style_norm_qg "LONG" = "natural" :=
  ⟨style_norm_characterization.1 none rfl,
    (style_norm_characterization.2.1 "LONG").mpr (Or.inr (by decide))⟩

/-- `run_one` always carries the product's own id. -/
theorem run_one_product_id (cfg : Config) (parse : String → Except Unit Json)
    (o : Oracle) (p : ProductIn) : (run_one cfg parse o p).product_id = p.id := by
  unfold run_one
  split <;> rfl

/-- When the single-product orchestrator raises, `run_one` converts the
failure into an empty result. -/
theorem run_one_error (cfg : Config) (parse : String → Except Unit Json)
    (o : Oracle) (p : ProductIn) (e : PyErr)
    (h : generate_queries_for_single_product cfg parse o p = .error e) :
    run_one cfg parse o p = ⟨p.id, []⟩ := by
  unfold run_one
  rw [h]

/-- `run_one` depends on the oracle only through its answers for the
task's own product. -/
theorem run_one_congr (cfg : Config) (parse : String → Except Unit Json)
    (o o2 : Oracle) (p : ProductIn)
    (h1 : o.first p = o2.first p) (h2 : o.refine p = o2.refine p) :
    run_one cfg parse o p = run_one cfg parse o2 p := by
  unfold run_one generate_queries_for_single_product
  rw [h1, h2]

/-- C1: the batch result has exactly one entry per input product, in
input order, each carrying the matching product's id, for every
configuration (hence every concurrency bound) and every oracle (hence
regardless of which products succeed); empty input yields empty
output. -/
theorem batch_preserves_length_and_order (cfg : Config)
    (parse : String → Except Unit Json) (o : Oracle) (products : List ProductIn) :
    (generate_queries_for_batch cfg parse o products).length = products.length ∧
    (∀ i (h1 : i < (generate_queries_for_batch cfg parse o products).length)
      (h2 : i < products.length),
      ((generate_queries_for_batch cfg parse o products).get ⟨i, h1⟩).product_id =
        (products.get ⟨i, h2⟩).id) ∧
    (products = [] → generate_queries_for_batch cfg parse o products = []) := by
  refine ⟨by rw [batch_eq_map]; simp, ?_, ?_⟩
  · intro i h1 h2
    simp only [List.get_eq_getElem, batch_eq_map, List.getElem_map]
    exact run_one_product_id cfg parse o _
  · intro h
    subst h
    rfl

/-- C1 witness: a concrete two-product batch. -/
theorem batch_preserves_length_and_order_witness :
    (generate_queries_for_batch cfgDemo jsonParse oracleDemo prodsDemo).length =
      prodsDemo.length ∧
    ((generate_queries_for_batch cfgDemo jsonParse oracleDemo prodsDemo).get
      ⟨0, by decide⟩).product_id = (prodsDemo.get ⟨0, by decide⟩).id :=
  ⟨(batch_preserves_length_and_order cfgDemo jsonParse oracleDemo prodsDemo).1,
    (batch_preserves_length_and_order cfgDemo jsonParse oracleDemo prodsDemo).2.1
      0 (by decide) (by decide)⟩

/-- C2: when the single-product orchestrator raises for the `i`-th
product, the batch entry at `i` is that product's id with an empty
query sequence (the batch itself is a total function, so the per-product
failure never aborts it); and for any second oracle agreeing everywhere
except at a product `p`, every index holding a product other than `p`
yields the identical result — one product's failure leaves its siblings'
results exactly as they would have been. -/
theorem batch_isolates_failures (cfg : Config) (parse : String → Except Unit Json)
    (o o2 : Oracle) (products : List ProductIn) (i : Nat) (h2 : i < products.length) :
    (∀ e, generate_queries_for_single_product cfg parse o (products.get ⟨i, h2⟩) =
        .error e →
      ∀ h1 : i < (generate_queries_for_batch cfg parse o products).length,
        (generate_queries_for_batch cfg parse o products).get ⟨i, h1⟩ =
          ⟨(products.get ⟨i, h2⟩).id, []⟩) ∧
    (∀ p : ProductIn,
      (∀ q : ProductIn, q ≠ p → o.first q = o2.first q ∧ o.refine q = o2.refine q) →
      products.get ⟨i, h2⟩ ≠ p →
      ∀ (h1 : i < (generate_queries_for_batch cfg parse o products).length)
        (h1b : i < (generate_queries_for_batch cfg parse o2 products).length),
        (generate_queries_for_batch cfg parse o products).get ⟨i, h1⟩ =
          (generate_queries_for_batch cfg parse o2 products).get ⟨i, h1b⟩) := by
  constructor
  · intro e he h1
    simp only [List.get_eq_getElem] at he ⊢
    simp only [batch_eq_map, List.getElem_map]
    exact run_one_error cfg parse o _ e he
  · intro p hagree hne h1 h1b
    simp only [List.get_eq_getElem] at hne ⊢
    simp only [batch_eq_map, List.getElem_map]
    obtain ⟨hf, hr⟩ := hagree _ hne
    exact run_one_congr cfg parse o o2 _ hf hr

/-- C2 witness: with the model failing exactly on the middle product of
a three-product batch, entry 1 is empty with the right id, and entry 0
is identical to the run where nothing fails. -/
theorem batch_isolates_failures_witness :
    (generate_queries_for_batch cfgDemo jsonParse oracleFailP2 prods3).get
      ⟨1, by decide⟩ = ⟨"p2", []⟩ ∧
    (generate_queries_for_batch cfgDemo jsonParse oracleFailP2 prods3).get
      ⟨0, by decide⟩ =
      (generate_queries_for_batch cfgDemo jsonParse oracleDemo prods3).get
        ⟨0, by decide⟩ :=
  ⟨(batch_isolates_failures cfgDemo jsonParse oracleFailP2 oracleDemo prods3 1
      (by decide)).1 .modelError rfl (by decide),
    (batch_isolates_failures cfgDemo jsonParse oracleFailP2 oracleDemo prods3 0
      (by decide)).2 pDemo2
      (fun q hq => ⟨by simp [oracleFailP2, oracleDemo, hq], rfl⟩)
      (by decide) (by decide) (by decide)⟩

/-- C5: with self-check enabled and a successful first pass yielding
`deduped`, any exception anywhere in the refinement stage, and likewise
a refinement yielding zero accepted queries, leave the single-product
result exactly the first-pass `deduped`; a refinement with at least one
accepted query replaces the result entirely. -/
theorem self_check_fallback_or_replace (cfg : Config)
    (parse : String → Except Unit Json) (o : Oracle) (p : ProductIn)
    (resp : ChatResponse) (c : String) (deduped : List QueryOut)
    (hsdk : cfg.sdk_available = true) (hkey : ¬cfg.openai_api_key = "")
    (hon : cfg.llm_self_check = true)
    (hfirst : o.first p = .ok resp)
    (hcontent : content_of resp = some c)
    (hinterp : interpret_queries parse (pyStrip c) = .ok deduped) :
    (∀ e, refineStage parse (o.refine p) deduped = .error e →
      generate_queries_for_single_product cfg parse o p = .ok deduped) ∧
    (refineStage parse (o.refine p) deduped = .ok [] →
      generate_queries_for_single_product cfg parse o p = .ok deduped) ∧
    (∀ final, refineStage parse (o.refine p) deduped = .ok final → final ≠ [] →
      generate_queries_for_single_product cfg parse o p = .ok final) := by
  have hsingle : generate_queries_for_single_product cfg parse o p =
      .ok (apply_self_check cfg parse (o.refine p) deduped) := by
    unfold generate_queries_for_single_product generate_queries_single_core
    simp only [hsdk, hfirst, hcontent, hinterp]
    simp [hkey]
  refine ⟨?_, ?_, ?_⟩
  · intro e he
    rw [hsingle]
    unfold apply_self_check
    rw [if_pos hon, he]
  · intro he
    rw [hsingle]
    unfold apply_self_check
    rw [if_pos hon, he]
    rfl
  · intro final he hne
    rw [hsingle]
    unfold apply_self_check
    rw [if_pos hon, he]
    simp [List.isEmpty_iff, hne]

set_option maxRecDepth 8000 in
/-- C5 witness: self-check enabled, first pass yields one query, and
the refinement call raises — the first pass is returned unchanged. -/
theorem self_check_fallback_witness :
    generate_queries_for_single_product cfgSelfCheck jsonParse oracleDemo pDemo1 =
      .ok [qDemo] :=
  (self_check_fallback_or_replace cfgSelfCheck jsonParse oracleDemo pDemo1
    (respWith jsonGood) jsonGood [qDemo] rfl (by decide) rfl rfl rfl rfl).1
    .modelError rfl

/-- C8: every query in any batch result — first pass or refined, for
every configuration, parser behavior, oracle and input — has non-empty
trimmed text, a style in the closed two-value set, and a bucket in the
closed bucket set or `misc`. -/
theorem pipeline_output_well_formed (cfg : Config) (parse : String → Except Unit Json)
    (o : Oracle) (products : List ProductIn) (r : GeneratedQueriesOut) (q : QueryOut)
    (hr : r ∈ generate_queries_for_batch cfg parse o products) (hq : q ∈ r.queries) :
    pyStrip q.text ≠ "" ∧ (q.style = "short" ∨ q.style = "natural") ∧
    (q.bucket ∈ BUCKETS ∨ q.bucket = "misc") := by
  rw [batch_eq_map] at hr
  obtain ⟨p, hp, rfl⟩ := List.mem_map.mp hr
  have hq2 : q ∈ (match generate_queries_for_single_product cfg parse o p with
    | .error _ => (⟨p.id, []⟩ : GeneratedQueriesOut)
    | .ok qs => ⟨p.id, qs⟩).queries := hq
  cases hs : generate_queries_for_single_product cfg parse o p with
  | error e =>
    rw [hs] at hq2
    simp at hq2
  | ok qs =>
    rw [hs] at hq2
    have hq3 : q ∈ qs := hq2
    obtain ⟨hstrip, hne, hstyle, hbucket⟩ :=
      generate_queries_for_single_product_wf cfg parse o p qs hs q hq3
    refine ⟨?_, hstyle, hbucket⟩
    rw [hstrip]
    exact hne

set_option maxRecDepth 8000 in
/-- C8 witness: the concrete demo batch output. -/
theorem pipeline_output_well_formed_witness :
    pyStrip qDemo.text ≠ "" ∧ (qDemo.style = "short" ∨ qDemo.style = "natural") ∧
    (qDemo.bucket ∈ BUCKETS ∨ qDemo.bucket = "misc") :=
  pipeline_output_well_formed cfgDemo jsonParse oracleDemo [pDemo1]
    ⟨"p1", [qDemo]⟩ qDemo (by decide) (by decide)

/-- C9: in every schedule of the semaphore-gated concurrent path with
capacity `C`, at no reachable instant do more than `C` tasks hold a
semaphore slot — and a task's model-client invocations happen only
while it holds its slot, so at most `C` invocations are outstanding
simultaneously. -/
theorem concurrency_bound_holds (cfg : Config) (parse : String → Except Unit Json)
    (o : Oracle) (products : List ProductIn) (C : Nat) (σ : SchedState)
    (h : SchedReachable cfg parse o products C σ) :
    runningCount σ.tasks ≤ C := by
  have hacc := sched_accounting cfg parse o products C σ h
  omega

/-- C9 witness: five products under capacity two, at the initial
state. -/
theorem concurrency_bound_holds_witness :
    runningCount (initState prods5 2).tasks ≤ 2 :=
  concurrency_bound_holds cfgDemo jsonParse oracleDemo prods5 2 (initState prods5 2)
    Relation.ReflTransGen.refl

/-- C10: the effective concurrency bound is `max 1 v` (so at least one,
and exactly one for every `v ≤ 1`, including zero and negatives), and a
non-empty batch takes the strictly sequential path precisely when the
clamped bound is one, in which case the result is the in-order
sequential run. -/
theorem concurrency_clamp_and_sequential_path (cfg : Config)
    (parse : String → Except Unit Json) (o : Oracle) (products : List ProductIn) :
    (1 ≤ (max 1 cfg.concurrency_limit : Int)) ∧
    ((max 1 cfg.concurrency_limit : Int) = 1 ↔ cfg.concurrency_limit ≤ 1) ∧
    (cfg.concurrency_limit ≤ 0 → (max 1 cfg.concurrency_limit : Int) = 1) ∧
    (products ≠ [] →
      (batch_path cfg products = .sequential ↔
        (max 1 cfg.concurrency_limit : Int) = 1)) ∧
    (batch_path cfg products = .sequential →
      generate_queries_for_batch cfg parse o products =
        sequential_results cfg parse o products) := by
  refine ⟨le_max_left _ _, max_eq_left_iff, ?_, ?_, ?_⟩
  · intro h
    rw [max_eq_left_iff]
    omega
  · intro hne
    unfold batch_path
    rw [if_neg (by simpa [List.isEmpty_iff] using hne)]
    by_cases hc : (max 1 cfg.concurrency_limit : Int) ≤ 1
    · rw [if_pos hc]
      exact ⟨fun _ => le_antisymm hc (le_max_left _ _), fun _ => rfl⟩
    · rw [if_neg hc]
      constructor
      · intro hcontra
        cases hcontra
      · intro heq
        exact absurd (le_of_eq heq) hc
  · intro _
    exact batch_eq_map cfg parse o products

/-- C10 witness: a configured limit of zero clamps to one and takes the
sequential path on a non-empty batch. -/
theorem concurrency_clamp_witness :
    batch_path cfgSeq [pDemo1] = BatchPath.sequential ∧
    generate_queries_for_batch cfgSeq jsonParse oracleDemo [pDemo1] =
      sequential_results cfgSeq jsonParse oracleDemo [pDemo1] := by
  have hpath : batch_path cfgSeq [pDemo1] = BatchPath.sequential :=
    ((concurrency_clamp_and_sequential_path cfgSeq jsonParse oracleDemo [pDemo1]).2.2.2.1
      (by decide)).mpr
      ((concurrency_clamp_and_sequential_path cfgSeq jsonParse oracleDemo [pDemo1]).2.2.1
        (by decide))
  exact ⟨hpath,
    (concurrency_clamp_and_sequential_path cfgSeq jsonParse oracleDemo [pDemo1]).2.2.2.2
      hpath⟩
